import Mathlib

/-!
Shallow embedding of the junction classifier, source injection, modal
selection, radiation-impedance spline, contour intake and transfer-function
interpolation of the Vocal3D acoustic simulator
(sources/Backend/Acoustic3dSimulation.cpp and
sources/Backend/CrossSection2d.cpp), together with theorems settling the
specification claims about them.

Machine doubles are embedded as exact rationals: every claim checked here is
about the algebraic structure of the computations (which branch is taken,
which scale factor enters a formula, which index is accessed), not about
floating-point rounding.
-/

namespace Vocal3D

/-! ## Complex numbers with rational components

`complex<double>` values are embedded as pairs of rationals so that every
definition stays computable and decidable. -/

structure Cplx where
  re : ℚ
  im : ℚ
deriving DecidableEq, Repr

namespace Cplx

instance : Zero Cplx := ⟨⟨0, 0⟩⟩

instance : Add Cplx := ⟨fun z w => ⟨z.re + w.re, z.im + w.im⟩⟩

instance : Mul Cplx := ⟨fun z w => ⟨z.re * w.re - z.im * w.im, z.re * w.im + z.im * w.re⟩⟩

end Cplx

/-! ## C9: getCurvatureAngleShift (Acoustic3dSimulation.cpp, lines 4849-4903)

The function receives the centerline points `P1`, `P2` and normals `N1`, `N2`
of two adjacent sections and outputs a curvature radius and the shift of `P2`
along `N2`.  The angle output involves `atan2`/`fmod` and is not needed by any
claim, so only the radius/shift computation is embedded (lines 4866-4888). -/

structure Pt2 where
  x : ℚ
  y : ℚ
deriving DecidableEq, Repr

/-- Radius of the circle arc whose center is the intersection point of the
normals and which passes through `P1` (line 4871). -/
def radiusZero (P1 P2 N1 N2 : Pt2) : ℚ :=
  ((P2.y - P1.y) * N2.x - (P2.x - P1.x) * N2.y) / (N2.x * N1.y - N2.y * N1.x)

/-- Radius of the circle arc whose center is the intersection point of the
normals and which passes through `P2` (line 4877). -/
def radiusOne (P1 P2 N1 N2 : Pt2) : ℚ :=
  ((P2.y - P1.y) * N1.x - (P2.x - P1.x) * N1.y) / (N2.x * N1.y - N2.y * N1.x)

/-- Embedding of the radius and shift outputs of
`Acoustic3dSimulation::getCurvatureAngleShift`: the returned radius is
`radii[0]` (line 4885) and the shift is `radii[0] - radius` (line 4888). -/
def getCurvatureAngleShift (P1 P2 N1 N2 : Pt2) : ℚ × ℚ :=
  let radii0 := radiusZero P1 P2 N1 N2
  let radius := radii0
  let shift := radii0 - radius
  (radius, shift)

/-! ## C1: junction branch classification
(Acoustic3dSimulation.cpp, `propagateImpedAdmit` lines 1620-1722 and
`propagateVelocityPress` lines 1907-1986, MAGNUS cases)

The geometric data of a cross-section that enters the classifier: its area
and its entry (`scaleIn`) and exit (`scaleOut`) scaling factors. -/

structure CrossSection where
  area : ℚ
  scaleIn : ℚ
  scaleOut : ℚ
deriving DecidableEq, Repr

/-- The two branches of a junction update: the contraction branch updates the
admittance through `F Y Fᵀ`, the expansion branch updates the impedance
through `F Z Fᵀ` (with an inversion at the end of each branch to recover the
other quantity). -/
inductive JunctionBranch where
  | contraction
  | expansion
deriving DecidableEq, Repr

/-- Branch selected by the MAGNUS junction update of
`Acoustic3dSimulation::propagateImpedAdmit`.  `sec` is the section `i`
currently being entered by the propagation and `prevSec` the section
`i - direction` just left.  With `direction = -1` the test is
`area(i)·scaleOut(i)² > area(prevSec)·scaleIn(prevSec)²` (lines 1626-1629);
with `direction = +1` it is
`area(i)·scaleIn(i)² > area(prevSec)·scaleOut(prevSec)²` (lines 1676-1679).
The true branch accumulates `prevAdmit += σ²·F·Y·Fᵀ ∓ losses` (contraction),
the false branch accumulates `prevImped += σ²·F·Z·(…)⁻¹·Fᵀ` (expansion). -/
def impedAdmitJunctionBranch (direction : ℤ) (sec prevSec : CrossSection) : JunctionBranch :=
  if direction = -1 then
    if sec.area * sec.scaleOut ^ 2 > prevSec.area * prevSec.scaleIn ^ 2 then
      JunctionBranch.contraction
    else
      JunctionBranch.expansion
  else
    if sec.area * sec.scaleIn ^ 2 > prevSec.area * prevSec.scaleOut ^ 2 then
      JunctionBranch.contraction
    else
      JunctionBranch.expansion

/-- Branch selected by the MAGNUS junction update of
`Acoustic3dSimulation::propagateVelocityPress`.  `sec` is the section `i`
being left by the propagation and `nextSec` the section `i + direction` about
to be entered.  With `direction = -1` the test is
`area(i)·scaleIn(i)² > area(nextSec)·scaleOut(nextSec)²` (lines 1913-1916);
with `direction = +1` it is
`area(i)·scaleOut(i)² > area(nextSec)·scaleIn(nextSec)²` (lines 1951-1954).
The true branch transfers the pressure (`prevPress += F·P·σ`, contraction),
the false branch transfers the velocity (`prevVelo += F·Q·σ`, expansion). -/
def velocityPressJunctionBranch (direction : ℤ) (sec nextSec : CrossSection) : JunctionBranch :=
  if direction = -1 then
    if sec.area * sec.scaleIn ^ 2 > nextSec.area * nextSec.scaleOut ^ 2 then
      JunctionBranch.contraction
    else
      JunctionBranch.expansion
  else
    if sec.area * sec.scaleOut ^ 2 > nextSec.area * nextSec.scaleIn ^ 2 then
      JunctionBranch.contraction
    else
      JunctionBranch.expansion

/-- Spec-side sectional quantity of the upstream side of a junction (the side
with the lower section index, which touches the junction with its exit face):
`area·scale²` with the exit scale factor. -/
def upstreamQuantity (s : CrossSection) : ℚ := s.area * s.scaleOut ^ 2

/-- Spec-side sectional quantity of the downstream side of a junction (the
side with the greater section index, which touches the junction with its
entry face): `area·scale²` with the entry scale factor. -/
def downstreamQuantity (s : CrossSection) : ℚ := s.area * s.scaleIn ^ 2

/-! ## C2: source injection
(Acoustic3dSimulation.cpp, `solveWaveProblem` lines 2392-2399)

The injected velocity vector has a single nonzero entry at mode index 0,
`inputVelocity(0,0) = -1i · 2π·freq · volumicMass · scaleIn(sec 0)³ ·
area(sec 0)`, and the input pressure is `Zin(sec 0) · inputVelocity`.  The
constant `M_PI` is embedded as a parameter `pi`. -/

/-- Embedding of the injected source velocity vector (lines 2392-2395): entry
0 is `-1i * 2π * freq * rho * scaleIn³ * area` — note the cube `pow(..., 3)`
in the source — and every other entry is zero. -/
def inputVelocityVec (pi freq rho scaleIn area : ℚ) : ℕ → Cplx := fun j =>
  if j = 0 then ⟨0, -(2 * pi * freq * rho * scaleIn ^ 3 * area)⟩ else 0

/-- Modelled from the spec (section 4.10, step 4): the spec's injected source
velocity `Q_in = −i·2πf·ρ·scale_in²·area·ê_0`, with the square of the entry
scale factor.  Used only to compare the spec's formula with the code's. -/
def specInputVelocityVec (pi freq rho scaleIn area : ℚ) : ℕ → Cplx := fun j =>
  if j = 0 then ⟨0, -(2 * pi * freq * rho * scaleIn ^ 2 * area)⟩ else 0

/-- Row `m` of the product of the matrix `Z` with the column vector `v`,
summing the first `n` columns: embeds the Eigen matrix-vector product
`m_crossSections[0]->Zin() * inputVelocity` of line 2396 entrywise. -/
def matVecRow (Z : ℕ → ℕ → Cplx) (v : ℕ → Cplx) (m : ℕ) : ℕ → Cplx
  | 0 => 0
  | n + 1 => matVecRow Z v m n + Z m n * v n

/-- Embedding of the input pressure of line 2396: `P_in = Z_in · Q_in` over
`numModes` modes. -/
def inputPressureVec (Z : ℕ → ℕ → Cplx) (numModes : ℕ) (v : ℕ → Cplx) : ℕ → Cplx :=
  fun m => matVecRow Z v m numModes

/-! ## C3 and C8: mode selection
(CrossSection2d.cpp, `CrossSection2dFEM::computeModes` lines 655-702)

When the requested mode count is zero the source scans the ascending
eigenvalues with
`while ((eigenSolver.eigenvalues()[idx] < maxWaveNumber) && (idx < size))`.
The access `eigenvalues()[idx]` is evaluated before the bound test
`idx < size`, so the embedding returns `none` when the scan reads one past
the end of the eigenvalue list. -/

/-- Embedding of the eigenvalue scan (lines 663-671): starting from the head,
count eigenvalues strictly below `maxWaveNumber`; reaching the end of the
list means the next loop iteration reads `eigenvalues[size]`, out of bounds,
embedded as `none`. -/
def scanModeCount (maxWaveNumber : ℚ) : List ℚ → Option ℕ
  | [] => none
  | x :: xs =>
    if x < maxWaveNumber then (scanModeCount maxWaveNumber xs).map (· + 1) else some 0

/-- Embedding of the retained eigenvalues of
`CrossSection2dFEM::computeModes` (lines 658-702): with `numModes = 0` the
scan determines the count and the first `count` ascending eigenvalues are
kept; with `numModes > 0` the first `numModes` eigenvalues are kept (the
extraction loop of lines 676-681 reads `eigenvalues()[i]` for
`i < numModes`, out of bounds — `none` — when `numModes` exceeds the
eigenvalue count). -/
def retainedEigenvalues (maxWaveNumber : ℚ) (numModes : ℕ) (ev : List ℚ) :
    Option (List ℚ) :=
  if numModes = 0 then
    (scanModeCount maxWaveNumber ev).map (fun k => ev.take k)
  else if numModes ≤ ev.length then some (ev.take numModes) else none

/-! ## C4: radiation-impedance spline
(Acoustic3dSimulation.cpp, `computeInterpCoefRadMat` lines 6361-6434 and
`interpolateRadiationImpedance` lines 6439-6466)

Each scalar component (real or imaginary part of one matrix entry) of the
radiation impedance is sampled at `nbRadFreqs` frequencies and interpolated
by the piecewise cubic `a + b·Δf + c·Δf² + d·Δf³`.  The scalar sampled
values are `a`, the `c` coefficients come from a tridiagonal solve and carry
the natural boundary condition `c 0 = c (n-1) = 0`, and `b`, `d` are derived
from `a` and `c` by the closed formulas of lines 6423-6429. -/

/-- Frequency step `stepRadFreqs[i] = radiationFreqs[i+1] - radiationFreqs[i]`
(lines 6370-6373). -/
def stepRadFreq (freqs : ℕ → ℚ) (i : ℕ) : ℚ := freqs (i + 1) - freqs i

/-- The `b` spline coefficient of lines 6425-6427:
`b[f] = (a[f+1] - a[f]) / h[f] - h[f]·(c[f+1] + 2·c[f]) / 3`. -/
def splineCoefB (a c freqs : ℕ → ℚ) (f : ℕ) : ℚ :=
  (a (f + 1) - a f) / stepRadFreq freqs f
    - stepRadFreq freqs f * (c (f + 1) + 2 * c f) / 3

/-- The `d` spline coefficient of line 6428:
`d[f] = (c[f+1] - c[f]) / 3 / h[f]`. -/
def splineCoefD (c freqs : ℕ → ℚ) (f : ℕ) : ℚ :=
  (c (f + 1) - c f) / 3 / stepRadFreq freqs f

/-- The index search of line 6445: starting from `nbRadFreqs - 2`, decrement
while `radiationFreqs[idx] > freq` and `idx > 0`. -/
def findInterpIdx (freqs : ℕ → ℚ) (fr : ℚ) : ℕ → ℕ
  | 0 => 0
  | i + 1 => if freqs (i + 1) > fr then findInterpIdx freqs fr i else i + 1

/-- Scalar embedding of `interpolateRadiationImpedance` (lines 6442-6463):
locate the piece index for the query frequency and evaluate the cubic
`a[idx] + b[idx]·Δf + c[idx]·Δf² + d[idx]·Δf³` with
`Δf = freq - radiationFreqs[idx]`.  The code applies this formula
independently to the real and imaginary part of every matrix entry. -/
def interpolateRadiationValue (a b c d freqs : ℕ → ℚ) (nbRadFreqs : ℕ) (fr : ℚ) : ℚ :=
  let idx := findInterpIdx freqs fr (nbRadFreqs - 2)
  a idx + b idx * (fr - freqs idx) + c idx * (fr - freqs idx) ^ 2
    + d idx * (fr - freqs idx) ^ 3

/-! ## C5: createUniqueContour sentinel scrubbing and gap adjustment
(Acoustic3dSimulation.cpp, lines 4471-4519)

`MINIMAL_DISTANCE = 0.05 = 1/20` and `HALF_MINIMAL_DISTANCE = 0.025 = 1/40`.
After the start index `idxStart` and stop index `idxStop` of the contour have
been detected, samples before `idxStart` and after `idxStop` (up to sample
`NUM_PROFILE_SAMPLES - 2`) are overwritten with the invalid sentinel, and
each interior sample whose profiles are closer than the minimal distance is
spread apart by half the minimal distance on each side (lines 4512-4519). -/

/-- The gap adjustment of lines 4514-4518 applied to one sample:
if `|up - lo| < 0.05` then `up += 0.025` and `lo -= 0.025`. -/
def adjustGapPair (u l : ℚ) : ℚ × ℚ :=
  if |u - l| < 1 / 20 then (u + 1 / 40, l - 1 / 40) else (u, l)

/-- Upper profile after the sentinel scrubbing (lines 4497-4509) and the gap
adjustment pass (lines 4511-4519).  `numSamples` is
`VocalTract::NUM_PROFILE_SAMPLES` and `invalidVal` the sentinel
`VocalTract::INVALID_PROFILE_SAMPLE`. -/
def scrubbedUpperProfile (invalidVal : ℚ) (up lo : ℕ → ℚ)
    (idxStart idxStop numSamples : ℕ) : ℕ → ℚ := fun i =>
  if i < idxStart then invalidVal
  else if idxStop < i ∧ i + 1 < numSamples then invalidVal
  else if idxStart < i ∧ i < idxStop then (adjustGapPair (up i) (lo i)).1
  else up i

/-- Lower profile after the sentinel scrubbing and the gap adjustment pass,
mirroring `scrubbedUpperProfile`. -/
def scrubbedLowerProfile (invalidVal : ℚ) (up lo : ℕ → ℚ)
    (idxStart idxStop numSamples : ℕ) : ℕ → ℚ := fun i =>
  if i < idxStart then invalidVal
  else if idxStop < i ∧ i + 1 < numSamples then invalidVal
  else if idxStart < i ∧ i < idxStop then (adjustGapPair (up i) (lo i)).2
  else lo i

/-! ## C6: CSV contour import
(Acoustic3dSimulation.cpp, `extractContoursFromCsvFile` lines 5051-5111)

Each slice of the CSV file yields one contour, a list of 2-D points.  The
string tokenization is assumed successful (its failures abort the import
before the logic embedded here); the embedding covers the per-slice size
check, the removal of a duplicated closing point, the optional polyline
simplification — kept abstract as a parameter `simplifyFn`, applied when the
flag is set and the contour has more than 10 points — and the final
two-slice check.  `none` embeds `return false`. -/

/-- Removal of the duplicated closing point (lines 5068-5074): if the last
point equals the first, erase the last point. -/
def dropLastIfClosed (c : List (ℚ × ℚ)) : List (ℚ × ℚ) :=
  if c.head? = c.getLast? then c.dropLast else c

/-- Per-slice processing (lines 5052-5092): a contour with fewer than 3
points aborts the import; otherwise the duplicated closing point is dropped
and, when requested and the contour has more than 10 points, the polyline
simplification is applied to the result. -/
def processSlice (simplifyFn : List (ℚ × ℚ) → List (ℚ × ℚ)) (simplifyContours : Bool)
    (c : List (ℚ × ℚ)) : Option (List (ℚ × ℚ)) :=
  if c.length < 3 then none
  else
    let c2 := dropLastIfClosed c
    some (if simplifyContours ∧ 10 < c2.length then simplifyFn c2 else c2)

/-- The slice loop of `extractContoursFromCsvFile`: process the slices in
order, aborting on the first failure. -/
def extractLoop (simplifyFn : List (ℚ × ℚ) → List (ℚ × ℚ)) (simplifyContours : Bool) :
    List (List (ℚ × ℚ)) → Option (List (List (ℚ × ℚ)))
  | [] => some []
  | c :: rest =>
    match processSlice simplifyFn simplifyContours c with
    | none => none
    | some c2 => (extractLoop simplifyFn simplifyContours rest).map (c2 :: ·)

/-- Embedding of `extractContoursFromCsvFile` (lines 5009-5110): run the
slice loop, then fail if fewer than two contours were extracted
(line 5098). -/
def extractContoursFromCsv (simplifyFn : List (ℚ × ℚ) → List (ℚ × ℚ))
    (simplifyContours : Bool) (slices : List (List (ℚ × ℚ))) :
    Option (List (List (ℚ × ℚ))) :=
  match extractLoop simplifyFn simplifyContours slices with
  | none => none
  | some out => if out.length < 2 then none else some out

/-! ## C7: radiation section radius and PML thickness
(Acoustic3dSimulation.cpp, `createCrossSections` lines 5719-5772) -/

/-- Axis-aligned bounding box of a contour of the last slice. -/
structure Bbox where
  xmin : ℚ
  xmax : ℚ
  ymin : ℚ
  ymax : ℚ
deriving DecidableEq, Repr

/-- Per-contour contribution of lines 5752-5755:
`max({bbox.xmax, bbox.ymax, abs(bbox.xmin), abs(bbox.ymin)})` — the source
takes the absolute value of the two minima only. -/
def bboxRadContrib (b : Bbox) : ℚ :=
  max (max b.xmax b.ymax) (max |b.xmin| |b.ymin|)

/-- The radius accumulated over the last slice's contours: initialised to `0`
at line 5719 and updated with `radius = max(radius, …)` at lines 5752-5755. -/
def lastSliceRadius (bs : List Bbox) : ℚ :=
  bs.foldl (fun r b => max r (bboxRadContrib b)) 0

/-- PML thickness of the radiation cross-section (line 5768), set before the
radius is rescaled. -/
def pmlThickness (bs : List Bbox) : ℚ := lastSliceRadius bs

/-- Radius of the radiation cross-section (line 5769): `radius *= 2.1`. -/
def radiationRadius (bs : List Bbox) : ℚ := 21 / 10 * lastSliceRadius bs

/-- Spec-side definition, following the claim's words: the largest absolute
bounding-box coordinate of one contour, `max(|xmin|, |xmax|, |ymin|, |ymax|)`. -/
def specBboxExtremum (b : Bbox) : ℚ :=
  max (max |b.xmin| |b.xmax|) (max |b.ymin| |b.ymax|)

/-- Spec-side definition: `r_max`, the maximum over the last slice's contours
of the largest absolute bounding-box coordinate. -/
def specRmax (bs : List Bbox) : ℚ :=
  bs.foldl (fun r b => max r (specBboxExtremum b)) 0

/-! ## C10: transfer-function interpolation
(Acoustic3dSimulation.cpp, `interpolateTransferFunction` lines 5966-6022)

The transcendental primitives `log10`, `pow(10, ·)` and the square root used
by the complex magnitude `abs` are abstracted as function parameters; the
returned `complex<double>(NAN, NAN)` is embedded as `none`. -/

/-- The C-style cast `(int)q` of line 6001: truncation toward zero. -/
def cppTruncToInt (q : ℚ) : ℤ := Int.tdiv q.num (q.den : ℤ)

/-- Embedding of the single-point `interpolateTransferFunction` overload
(lines 5966-6022).  `tf` is the selected transfer-function matrix (indexed by
frequency row and reception-point column), `tfRows` its row count and
`tfCols` its column count, and `tfFreqs` the list of computed frequencies.
If no transfer function has been computed or the frequency lies outside the
computed interval the result is NaN (`none`); otherwise the base-10 logarithm
of the magnitude of the two bracketing samples is interpolated linearly and
the result is `pow(10, ·)` of the interpolated exponent, assigned to a
complex number with zero imaginary part. -/
def interpolateTF (logTen powTen sqrtQ : ℚ → ℚ) (tfRows tfCols : ℕ)
    (tf : ℕ → ℕ → Cplx) (tfFreqs : List ℚ) (samplingRate : ℚ)
    (numFreqPicture : ℕ) (freq : ℚ) (idxPt : ℕ) : Option Cplx :=
  match tfFreqs with
  | [] => none
  | f0 :: rest =>
    if 0 < tfRows then
      if f0 ≤ freq ∧ freq ≤ (f0 :: rest).getLastD 0 then
        let freqSteps := samplingRate / 2 / (numFreqPicture : ℚ)
        let idxPt2 := min tfCols idxPt
        let idx0 : ℤ := cppTruncToInt (freq / freqSteps)
        let idx1 : ℤ := min (((f0 :: rest).length : ℤ) - 1) (idx0 + 1)
        let t0 := logTen (sqrtQ
          ((tf idx0.toNat idxPt2).re ^ 2 + (tf idx0.toNat idxPt2).im ^ 2))
        let t1 := logTen (sqrtQ
          ((tf idx1.toNat idxPt2).re ^ 2 + (tf idx1.toNat idxPt2).im ^ 2))
        some ⟨powTen (t0 + (t1 - t0) * (freq - (idx0 : ℚ) * freqSteps) / freqSteps), 0⟩
      else none
    else none

end Vocal3D

namespace Vocal3D

theorem Cplx.zero_def : (0 : Cplx) = ⟨0, 0⟩ := rfl

theorem Cplx.add_def (z w : Cplx) : z + w = ⟨z.re + w.re, z.im + w.im⟩ := rfl

theorem Cplx.mul_def (z w : Cplx) :
    z * w = ⟨z.re * w.re - z.im * w.im, z.re * w.im + z.im * w.re⟩ := rfl

theorem Cplx.mul_zero_c (z : Cplx) : z * 0 = 0 := by
  simp [Cplx.mul_def, Cplx.zero_def]

theorem Cplx.add_zero_c (z : Cplx) : z + 0 = z := by
  simp [Cplx.add_def, Cplx.zero_def]

theorem Cplx.zero_add_c (z : Cplx) : (0 : Cplx) + z = z := by
  simp [Cplx.add_def, Cplx.zero_def]

/-- Claim C1: at every MAGNUS junction update, in both propagation passes and
in both propagation directions, the contraction/expansion choice is made by
comparing `area·scale²` of the two sides of the junction, the upstream side
entering with its exit scale factor and the downstream side with its entry
scale factor.  For a junction between an upstream section `u` and a
downstream section `d`: during impedance/admittance propagation the sections
are visited as `(sec, prevSec) = (u, d)` when `direction = -1` and `(d, u)`
when `direction = +1`; during pressure/velocity propagation they are visited
as `(sec, nextSec) = (d, u)` when `direction = -1` and `(u, d)` when
`direction = +1`.  In every case the branch is decided by the comparison of
`upstreamQuantity u` with `downstreamQuantity d` (the contraction branch
being taken exactly when the section currently processed is on the larger
side). -/
theorem claim_C1_junction_classifier (u d : CrossSection) :
    (impedAdmitJunctionBranch (-1) u d = JunctionBranch.contraction ↔
      upstreamQuantity u > downstreamQuantity d) ∧
    (impedAdmitJunctionBranch 1 d u = JunctionBranch.contraction ↔
      downstreamQuantity d > upstreamQuantity u) ∧
    (velocityPressJunctionBranch (-1) d u = JunctionBranch.contraction ↔
      downstreamQuantity d > upstreamQuantity u) ∧
    (velocityPressJunctionBranch 1 u d = JunctionBranch.contraction ↔
      upstreamQuantity u > downstreamQuantity d) := by
  refine ⟨?_, ?_, ?_, ?_⟩ <;>
    · simp only [impedAdmitJunctionBranch, velocityPressJunctionBranch,
        upstreamQuantity, downstreamQuantity]
      split <;> simp_all

theorem matVecRow_single (Z : ℕ → ℕ → Cplx) (v : ℕ → Cplx) (m : ℕ)
    (hv : ∀ j, j ≠ 0 → v j = 0) :
    ∀ n, 0 < n → matVecRow Z v m n = Z m 0 * v 0 := by
  intro n
  induction n with
  | zero => intro h; exact absurd h (lt_irrefl 0)
  | succ k ih =>
    intro _
    rcases Nat.eq_zero_or_pos k with hk | hk
    · subst hk
      simp [matVecRow, Cplx.zero_add_c]
    · have hvk : v k = 0 := hv k (Nat.pos_iff_ne_zero.mp hk)
      simp [matVecRow, ih hk, hvk, Cplx.mul_zero_c, Cplx.add_zero_c]

/-- Counterexample to claim C2 as stated: at `pi = 3`, `freq = 1`, `rho = 1`,
`scaleIn = 2`, `area = 1` the first-mode entry computed by the code
(`-i·2π·f·ρ·scaleIn³·area`, imaginary part `-48`) differs from the value the
claim states (`-i·2π·f·ρ·scaleIn²·area`, imaginary part `-24`): the source
multiplies by `pow(m_crossSections[0]->scaleIn(), 3)`, not the square. -/
theorem claim_C2_counterexample :
    inputVelocityVec 3 1 1 2 1 0 ≠ specInputVelocityVec 3 1 1 2 1 0 := by
  simp only [inputVelocityVec, specInputVelocityVec, if_pos rfl, ne_eq, Cplx.mk.injEq]
  norm_num

/-- Claim C2, amended: in the single-frequency wave solve the injected source
velocity vector has its first-mode entry equal to
`-i·2π·freq·rho·scaleIn³·area` of the first (glottis) section (the cube of
the entry scale factor, where the claim stated the square), all other entries
zero, and the input pressure is `Z_in` times that velocity vector (each row
of the product collapsing to `Z m 0 · v 0`). -/
theorem claim_C2_source_injection (pi freq rho scaleIn area : ℚ)
    (Z : ℕ → ℕ → Cplx) (numModes : ℕ) (h : 0 < numModes) :
    inputVelocityVec pi freq rho scaleIn area 0
        = ⟨0, -(2 * pi * freq * rho * scaleIn ^ 3 * area)⟩ ∧
    (∀ j, j ≠ 0 → inputVelocityVec pi freq rho scaleIn area j = 0) ∧
    (∀ m, inputPressureVec Z numModes (inputVelocityVec pi freq rho scaleIn area) m
        = Z m 0 * inputVelocityVec pi freq rho scaleIn area 0) := by
  refine ⟨rfl, fun j hj => by simp [inputVelocityVec, hj], fun m => ?_⟩
  exact matVecRow_single Z _ m (fun j hj => by simp [inputVelocityVec, hj]) numModes h

/-- Witness for claim C2's theorem at the concrete input `pi = 3`,
`freq = 1`, `rho = 1`, `scaleIn = 2`, `area = 1`, a constant `2×2` impedance
matrix and `numModes = 2`. -/
theorem claim_C2_witness :
    (0 : ℕ) < 2 ∧
      (inputVelocityVec 3 1 1 2 1 0 = ⟨0, -(2 * 3 * 1 * 1 * 2 ^ 3 * 1)⟩ ∧
       (∀ j, j ≠ 0 → inputVelocityVec 3 1 1 2 1 j = 0) ∧
       (∀ m, inputPressureVec (fun _ _ => ⟨1, 1⟩) 2 (inputVelocityVec 3 1 1 2 1) m
          = (fun _ _ => (⟨1, 1⟩ : Cplx)) m 0 * inputVelocityVec 3 1 1 2 1 0)) :=
  ⟨by norm_num,
    claim_C2_source_injection 3 1 1 2 1 (fun _ _ => ⟨1, 1⟩) 2 (by norm_num)⟩

theorem scanModeCount_eq_takeWhile (T : ℚ) (ev : List ℚ) (h : ∃ x ∈ ev, T ≤ x) :
    scanModeCount T ev = some (ev.takeWhile (fun x => x < T)).length := by
  induction ev with
  | nil => simp at h
  | cons x xs ih =>
    by_cases hx : x < T
    · have hxs : ∃ y ∈ xs, T ≤ y := by
        rcases h with ⟨y, hy, hTy⟩
        rcases List.mem_cons.mp hy with rfl | hy'
        · exact absurd hx (not_lt.mpr hTy)
        · exact ⟨y, hy', hTy⟩
      simp [scanModeCount, hx, ih hxs, List.takeWhile_cons]
    · simp [scanModeCount, hx, List.takeWhile_cons]

theorem takeWhile_eq_filter_of_sorted (T : ℚ) (ev : List ℚ)
    (hs : List.Sorted (· ≤ ·) ev) :
    ev.takeWhile (fun x => x < T) = ev.filter (fun x => x < T) := by
  induction ev with
  | nil => rfl
  | cons x xs ih =>
    rcases List.sorted_cons.mp hs with ⟨hall, hsxs⟩
    by_cases hx : x < T
    · simp [List.takeWhile_cons, List.filter_cons, hx, ih hsxs]
    · have hnil : xs.filter (fun y => decide (y < T)) = [] := by
        refine List.filter_eq_nil_iff.mpr fun y hy => ?_
        simp only [decide_eq_true_eq, not_lt]
        exact le_trans (not_lt.mp hx) (hall y hy)
      simp [List.takeWhile_cons, List.filter_cons, hx, hnil]

/-- Claim C3: in `CrossSection2dFEM::computeModes`, when the requested mode
count is 0 the retained eigenvalues are exactly those below
`maxWaveNumber = (2π·maxCutOnFreq/c)²`, taken in ascending order (the filter
of the ascending eigenvalue list), and when the requested count `numModes` is
positive exactly the first `numModes` eigenvalues are retained.  The
hypotheses record that the eigensolver returns the eigenvalues in ascending
order, that at least one eigenvalue reaches the cap (otherwise the scan reads
past the end of the list, claim C8), and that the requested count does not
exceed the number of eigenvalues. -/
theorem claim_C3_mode_selection (ev : List ℚ) (maxWaveNumber : ℚ) (numModes : ℕ)
    (hsort : List.Sorted (· ≤ ·) ev)
    (hcap : ∃ x ∈ ev, maxWaveNumber ≤ x)
    (hlen : numModes ≤ ev.length) :
    retainedEigenvalues maxWaveNumber 0 ev
        = some (ev.filter (fun x => x < maxWaveNumber)) ∧
    (0 < numModes →
      retainedEigenvalues maxWaveNumber numModes ev = some (ev.take numModes)) := by
  constructor
  · rw [retainedEigenvalues, if_pos rfl, scanModeCount_eq_takeWhile _ _ hcap]
    have hpre : ev.takeWhile (fun x => decide (x < maxWaveNumber)) <+: ev :=
      List.takeWhile_prefix _
    have htake :
        ev.take (ev.takeWhile (fun x => decide (x < maxWaveNumber))).length
          = ev.takeWhile (fun x => decide (x < maxWaveNumber)) := by
      rcases hpre with ⟨t, ht⟩
      set L := ev.takeWhile (fun x => decide (x < maxWaveNumber)) with hL
      rw [← ht, List.take_left]
    rw [Option.map_some', htake, takeWhile_eq_filter_of_sorted _ _ hsort]
  · intro hpos
    rw [retainedEigenvalues, if_neg (Nat.pos_iff_ne_zero.mp hpos), if_pos hlen]

/-- Witness for claim C3's theorem on the ascending eigenvalue list
`[0, 1, 2]` with `maxWaveNumber = 2` and a requested count of 2. -/
theorem claim_C3_witness :
    List.Sorted (· ≤ ·) ([0, 1, 2] : List ℚ) ∧
    (∃ x ∈ ([0, 1, 2] : List ℚ), (2 : ℚ) ≤ x) ∧
    2 ≤ ([0, 1, 2] : List ℚ).length ∧
    (retainedEigenvalues 2 0 ([0, 1, 2] : List ℚ)
        = some (([0, 1, 2] : List ℚ).filter (fun x => x < 2)) ∧
     (0 < 2 →
      retainedEigenvalues 2 2 ([0, 1, 2] : List ℚ)
        = some (([0, 1, 2] : List ℚ).take 2))) := by
  have h1 : List.Sorted (· ≤ ·) ([0, 1, 2] : List ℚ) := by
    norm_num [List.sorted_cons]
  have h2 : ∃ x ∈ ([0, 1, 2] : List ℚ), (2 : ℚ) ≤ x := ⟨2, by norm_num, le_refl 2⟩
  have h3 : 2 ≤ ([0, 1, 2] : List ℚ).length := by norm_num
  exact ⟨h1, h2, h3, claim_C3_mode_selection ([0, 1, 2] : List ℚ) 2 2 h1 h2 h3⟩

/-- Claim C8 fails on the code: the loop condition of lines 665-666 evaluates
`eigenSolver.eigenvalues()[idx]` before the bound test `idx < size`, so on a
spectrum whose eigenvalues all lie below the cut-on cap — here the ascending
eigenvalues `[0, 1/4, 1/2]` of a three-vertex mesh with
`maxWaveNumber = 1` — the scan reads `eigenvalues[3]`, one past the end: the
Option-valued embedding returns `none` instead of a retained mode list. -/
theorem claim_C8_out_of_bounds_scan :
    retainedEigenvalues 1 0 ([0, 1/4, 1/2] : List ℚ) = none := by
  norm_num [retainedEigenvalues, scanModeCount]

theorem freqs_strict_chain (freqs : ℕ → ℚ) (n : ℕ)
    (hmono : ∀ i, i + 1 < n → freqs i < freqs (i + 1)) :
    ∀ j k, k < j → j < n → freqs k < freqs j := by
  intro j
  induction j with
  | zero => intro k hk _; exact absurd hk (Nat.not_lt_zero k)
  | succ m ih =>
    intro k hk hn
    rcases Nat.lt_succ_iff_lt_or_eq.mp hk with h | h
    · exact lt_trans (ih k h (by omega)) (hmono m hn)
    · subst h; exact hmono k hn

theorem findInterpIdx_at_sample (freqs : ℕ → ℚ) (n : ℕ)
    (hmono : ∀ i, i + 1 < n → freqs i < freqs (i + 1)) :
    ∀ i k, k ≤ i → i < n → findInterpIdx freqs (freqs k) i = k := by
  intro i
  induction i with
  | zero =>
    intro k hk _
    have : k = 0 := Nat.le_zero.mp hk
    subst this
    rfl
  | succ m ih =>
    intro k hk hn
    rcases Nat.lt_succ_iff_lt_or_eq.mp (Nat.lt_succ_of_le hk) with h | h
    · have hlt : freqs k < freqs (m + 1) :=
        freqs_strict_chain freqs n hmono (m + 1) k h hn
      rw [findInterpIdx, if_pos hlt]
      exact ih k (by omega) (by omega)
    · subst h
      rw [findInterpIdx, if_neg (lt_irrefl (freqs (m + 1)))]

theorem findInterpIdx_at_last (freqs : ℕ → ℚ) (n : ℕ) (hn : 2 ≤ n)
    (hmono : ∀ i, i + 1 < n → freqs i < freqs (i + 1)) :
    findInterpIdx freqs (freqs (n - 1)) (n - 2) = n - 2 := by
  cases h : n - 2 with
  | zero => rfl
  | succ m =>
    have hm : m + 1 < n - 1 := by omega
    have hlt : freqs (m + 1) < freqs (n - 1) :=
      freqs_strict_chain freqs n hmono (n - 1) (m + 1) hm (by omega)
    rw [findInterpIdx, if_neg (not_lt.mpr hlt.le)]

/-- Claim C4: for every sample frequency of the radiation-impedance
precomputation, the cubic-spline interpolant evaluated at that exact
frequency returns the directly computed value stored for it — exactly, hence
in particular within `1e-12` — for every scalar component (real or imaginary
part of any matrix entry) with sampled values `a`, any `c` coefficients
satisfying the natural boundary condition, and `b`, `d` computed from them by
the formulas of `computeInterpCoefRadMat`.  The hypotheses record that there
are at least two sample frequencies and that they are strictly increasing. -/
theorem claim_C4_spline_at_samples (a b c d freqs : ℕ → ℚ) (n k : ℕ)
    (hn : 2 ≤ n)
    (hmono : ∀ i, i + 1 < n → freqs i < freqs (i + 1))
    (hb : ∀ f, f + 1 < n → b f = splineCoefB a c freqs f)
    (hd : ∀ f, f + 1 < n → d f = splineCoefD c freqs f)
    (hk : k < n) :
    interpolateRadiationValue a b c d freqs n (freqs k) = a k ∧
    |interpolateRadiationValue a b c d freqs n (freqs k) - a k| ≤ 1 / 10 ^ 12 := by
  have hmain : interpolateRadiationValue a b c d freqs n (freqs k) = a k := by
    by_cases hcase : k ≤ n - 2
    · have hidx : findInterpIdx freqs (freqs k) (n - 2) = k :=
        findInterpIdx_at_sample freqs n hmono (n - 2) k hcase (by omega)
      rw [interpolateRadiationValue]
      rw [hidx]
      ring
    · have hklast : k = n - 1 := by omega
      subst hklast
      have hidx : findInterpIdx freqs (freqs (n - 1)) (n - 2) = n - 2 :=
        findInterpIdx_at_last freqs n hn hmono
      have hsucc : n - 2 + 1 = n - 1 := by omega
      have hstep : stepRadFreq freqs (n - 2) ≠ 0 := by
        have := hmono (n - 2) (by omega)
        rw [stepRadFreq, hsucc]
        rw [hsucc] at this
        exact sub_ne_zero.mpr (ne_of_gt this)
      rw [interpolateRadiationValue]
      rw [hidx, hb (n - 2) (by omega), hd (n - 2) (by omega),
        splineCoefB, splineCoefD, hsucc]
      rw [stepRadFreq, hsucc] at hstep ⊢
      field_simp
      ring
  refine ⟨hmain, ?_⟩
  rw [hmain, sub_self, abs_zero]
  norm_num

/-- Witness for claim C4's theorem: two sample frequencies `0, 1`, sampled
values `a j = j + 1`, zero `c` coefficients and the derived `b`, `d`,
evaluated at the last sample frequency. -/
theorem claim_C4_witness :
    2 ≤ 2 ∧
    (∀ i : ℕ, i + 1 < 2 → ((i : ℚ) < ((i + 1 : ℕ) : ℚ))) ∧
    (1 : ℕ) < 2 ∧
    (interpolateRadiationValue (fun j => (j : ℚ) + 1)
        (splineCoefB (fun j => (j : ℚ) + 1) (fun _ => 0) (fun j => (j : ℚ)))
        (fun _ => 0)
        (splineCoefD (fun _ => (0 : ℚ)) (fun j => (j : ℚ)))
        (fun j => (j : ℚ)) 2 ((1 : ℕ) : ℚ) = ((1 : ℕ) : ℚ) + 1 ∧
     |interpolateRadiationValue (fun j => (j : ℚ) + 1)
        (splineCoefB (fun j => (j : ℚ) + 1) (fun _ => 0) (fun j => (j : ℚ)))
        (fun _ => 0)
        (splineCoefD (fun _ => (0 : ℚ)) (fun j => (j : ℚ)))
        (fun j => (j : ℚ)) 2 ((1 : ℕ) : ℚ) - (((1 : ℕ) : ℚ) + 1)| ≤ 1 / 10 ^ 12) := by
  have hmono : ∀ i : ℕ, i + 1 < 2 →
      ((fun j : ℕ => (j : ℚ)) i) < ((fun j : ℕ => (j : ℚ)) (i + 1)) := by
    intro i hi
    have h0 : i = 0 := by omega
    subst h0
    norm_num
  refine ⟨le_refl 2, fun i hi => hmono i hi, by norm_num, ?_⟩
  simpa using
    claim_C4_spline_at_samples (fun j => (j : ℚ) + 1)
      (splineCoefB (fun j => (j : ℚ) + 1) (fun _ => 0) (fun j => (j : ℚ)))
      (fun _ => 0)
      (splineCoefD (fun _ => (0 : ℚ)) (fun j => (j : ℚ)))
      (fun j => (j : ℚ)) 2 1 (le_refl 2) hmono (fun f _ => rfl) (fun f _ => rfl)
      (by norm_num)

/-- Counterexample to claim C5 as stated: when the lower profile lies above
the upper profile (here `up = -1/25`, `lo = 0` at the interior sample
`i = 1`, with `idxStart = 0`, `idxStop = 2`, `numSamples = 5`), the
adjustment still fires (`|up - lo| = 1/25 < 1/20`) but afterwards
`up - lo = 1/100 < 1/20`: the minimum gap of `0.05` is not reached. -/
theorem claim_C5_counterexample :
    ¬ (1 / 20 ≤
        scrubbedUpperProfile 0 (fun _ => -1/25) (fun _ => 0) 0 2 5 1
          - scrubbedLowerProfile 0 (fun _ => -1/25) (fun _ => 0) 0 2 5 1) := by
  have habs : |(-1/25 : ℚ) - 0| = 1/25 := by
    rw [abs_sub_comm]
    rw [abs_of_nonneg (by norm_num)]
    norm_num
  norm_num [scrubbedUpperProfile, scrubbedLowerProfile, adjustGapPair, habs,
    abs_of_nonneg (show (0 : ℚ) ≤ 1/25 by norm_num)]

/-- Claim C5, amended: after the sentinel scrubbing and gap-adjustment pass
of `createUniqueContour`, every interior sample strictly between the detected
start and stop indices whose upper profile lies on or above its lower profile
satisfies `upperProfile[i] - lowerProfile[i] ≥ 0.05`.  (The claim as stated,
without the order hypothesis, fails: see the counterexample.) -/
theorem claim_C5_minimum_gap (invalidVal : ℚ) (up lo : ℕ → ℚ)
    (idxStart idxStop numSamples i : ℕ)
    (hlow : idxStart < i) (hhigh : i < idxStop) (hord : lo i ≤ up i) :
    1 / 20 ≤
      scrubbedUpperProfile invalidVal up lo idxStart idxStop numSamples i
        - scrubbedLowerProfile invalidVal up lo idxStart idxStop numSamples i := by
  have h1 : ¬ i < idxStart := by omega
  have h2 : ¬ (idxStop < i ∧ i + 1 < numSamples) := by omega
  have h3 : idxStart < i ∧ i < idxStop := ⟨hlow, hhigh⟩
  rw [scrubbedUpperProfile, scrubbedLowerProfile]
  simp only [if_neg h1, if_neg h2, if_pos h3]
  rw [adjustGapPair]
  by_cases hgap : |up i - lo i| < 1 / 20
  · rw [if_pos hgap]
    have : 0 ≤ up i - lo i := sub_nonneg.mpr hord
    simp only
    linarith
  · rw [if_neg hgap]
    have habs : |up i - lo i| = up i - lo i := abs_of_nonneg (sub_nonneg.mpr hord)
    rw [habs] at hgap
    simp only
    linarith [not_lt.mp hgap]

/-- Witness for claim C5's theorem at the interior sample `i = 1` of a
profile pair with `up = lo = 0`, `idxStart = 0`, `idxStop = 2`,
`numSamples = 5`. -/
theorem claim_C5_witness :
    (0 : ℕ) < 1 ∧ (1 : ℕ) < 2 ∧ ((fun _ : ℕ => (0 : ℚ)) 1 ≤ (fun _ : ℕ => (0 : ℚ)) 1) ∧
    1 / 20 ≤
      scrubbedUpperProfile 0 (fun _ => 0) (fun _ => 0) 0 2 5 1
        - scrubbedLowerProfile 0 (fun _ => 0) (fun _ => 0) 0 2 5 1 :=
  ⟨Nat.zero_lt_one, Nat.one_lt_two, le_refl 0,
    claim_C5_minimum_gap 0 (fun _ => 0) (fun _ => 0) 0 2 5 1
      Nat.zero_lt_one Nat.one_lt_two (le_refl 0)⟩

theorem extractLoop_none_of_mem (simplifyFn : List (ℚ × ℚ) → List (ℚ × ℚ))
    (flag : Bool) (slices : List (List (ℚ × ℚ))) (c : List (ℚ × ℚ))
    (hc : c ∈ slices) (hfail : processSlice simplifyFn flag c = none) :
    extractLoop simplifyFn flag slices = none := by
  induction slices with
  | nil => simp at hc
  | cons s rest ih =>
    rcases List.mem_cons.mp hc with rfl | hmem
    · simp [extractLoop, hfail]
    · cases hps : processSlice simplifyFn flag s with
      | none => simp [extractLoop, hps]
      | some s2 => simp [extractLoop, hps, ih hmem]

theorem extractLoop_length (simplifyFn : List (ℚ × ℚ) → List (ℚ × ℚ))
    (flag : Bool) :
    ∀ (slices : List (List (ℚ × ℚ))) (out : List (List (ℚ × ℚ))),
      extractLoop simplifyFn flag slices = some out → out.length = slices.length := by
  intro slices
  induction slices with
  | nil =>
    intro out h
    simp [extractLoop] at h
    simp [← h]
  | cons s rest ih =>
    intro out h
    cases hps : processSlice simplifyFn flag s with
    | none => simp [extractLoop, hps] at h
    | some s2 =>
      cases hrest : extractLoop simplifyFn flag rest with
      | none => simp [extractLoop, hps, hrest] at h
      | some outRest =>
        simp [extractLoop, hps, hrest] at h
        simp [← h, ih outRest hrest]

theorem extractLoop_get (simplifyFn : List (ℚ × ℚ) → List (ℚ × ℚ))
    (flag : Bool) :
    ∀ (slices out : List (List (ℚ × ℚ))),
      extractLoop simplifyFn flag slices = some out →
      ∀ (k : ℕ) (c : List (ℚ × ℚ)), slices.get? k = some c →
        out.get? k = processSlice simplifyFn flag c := by
  intro slices
  induction slices with
  | nil =>
    intro out _ k c hk
    simp at hk
  | cons s rest ih =>
    intro out h k c hk
    cases hps : processSlice simplifyFn flag s with
    | none => simp [extractLoop, hps] at h
    | some s2 =>
      cases hrest : extractLoop simplifyFn flag rest with
      | none => simp [extractLoop, hps, hrest] at h
      | some outRest =>
        simp [extractLoop, hps, hrest] at h
        cases k with
        | zero =>
          rw [List.get?_cons_zero] at hk
          injection hk with hk
          subst hk
          simp [← h, hps]
        | succ m =>
          rw [List.get?_cons_succ] at hk
          rw [← h, List.get?_cons_succ]
          exact ih outRest hrest m c hk

/-- Claim C6: the CSV contour import fails (`none`, i.e. `return false`)
whenever any parsed slice contour has fewer than 3 points, and whenever fewer
than two slices are parsed; and on a successful import, a contour whose last
point equals its first point is stored with that last point dropped (the
optional simplification then applies to the already-dropped contour). -/
theorem claim_C6_csv_import (simplifyFn : List (ℚ × ℚ) → List (ℚ × ℚ))
    (flag : Bool) (slices : List (List (ℚ × ℚ))) :
    (∀ c ∈ slices, c.length < 3 →
      extractContoursFromCsv simplifyFn flag slices = none) ∧
    (slices.length < 2 → extractContoursFromCsv simplifyFn flag slices = none) ∧
    (∀ out, extractContoursFromCsv simplifyFn flag slices = some out →
      ∀ (k : ℕ) (c : List (ℚ × ℚ)), slices.get? k = some c →
        c.head? = c.getLast? →
        out.get? k = some (if flag ∧ 10 < c.dropLast.length
          then simplifyFn c.dropLast else c.dropLast)) := by
  refine ⟨?_, ?_, ?_⟩
  · intro c hc hlen
    have hfail : processSlice simplifyFn flag c = none := by
      rw [processSlice, if_pos hlen]
    simp [extractContoursFromCsv,
      extractLoop_none_of_mem simplifyFn flag slices c hc hfail]
  · intro hlen
    cases hloop : extractLoop simplifyFn flag slices with
    | none => simp [extractContoursFromCsv, hloop]
    | some out =>
      have hl := extractLoop_length simplifyFn flag slices out hloop
      simp [extractContoursFromCsv, hloop]
      omega
  · intro out hout k c hk hclosed
    have hloop : extractLoop simplifyFn flag slices = some out := by
      cases hl2 : extractLoop simplifyFn flag slices with
      | none => simp [extractContoursFromCsv, hl2] at hout
      | some out2 =>
        simp [extractContoursFromCsv, hl2] at hout
        rw [hout.2]
    have hget := extractLoop_get simplifyFn flag slices out hloop k c hk
    by_cases hlen : c.length < 3
    · rw [processSlice, if_pos hlen] at hget
      rcases List.get?_eq_some.mp hk with ⟨hks, _⟩
      have hlo := extractLoop_length simplifyFn flag slices out hloop
      have hnone := List.get?_eq_none.mp hget
      omega
    · rw [processSlice, if_neg hlen] at hget
      rw [hget]
      have hdrop : dropLastIfClosed c = c.dropLast := by
        rw [dropLastIfClosed, if_pos hclosed]
      rw [hdrop]

/-- Witness for claim C6's theorem: two concrete slices, the first a closed
triangle (last point equal to the first, which gets dropped), plus an
application of the fewer-than-two-slices failure to the empty slice list. -/
theorem claim_C6_witness :
    extractContoursFromCsv id false
        [[((0 : ℚ), (0 : ℚ)), (1, 0), (0, 0)], [((0 : ℚ), (0 : ℚ)), (1, 0), (0, 1)]]
      = some [[((0 : ℚ), (0 : ℚ)), (1, 0)], [((0 : ℚ), (0 : ℚ)), (1, 0), (0, 1)]] ∧
    ([[((0 : ℚ), (0 : ℚ)), (1, 0)], [((0 : ℚ), (0 : ℚ)), (1, 0), (0, 1)]] :
        List (List (ℚ × ℚ))).get? 0
      = some (if (false : Bool) ∧
            10 < ([((0 : ℚ), (0 : ℚ)), (1, 0), (0, 0)] : List (ℚ × ℚ)).dropLast.length
          then id ([((0 : ℚ), (0 : ℚ)), (1, 0), (0, 0)] : List (ℚ × ℚ)).dropLast
          else ([((0 : ℚ), (0 : ℚ)), (1, 0), (0, 0)] : List (ℚ × ℚ)).dropLast) ∧
    extractContoursFromCsv id false ([] : List (List (ℚ × ℚ))) = none := by
  have heval : extractContoursFromCsv id false
      [[((0 : ℚ), (0 : ℚ)), (1, 0), (0, 0)], [((0 : ℚ), (0 : ℚ)), (1, 0), (0, 1)]]
      = some [[((0 : ℚ), (0 : ℚ)), (1, 0)], [((0 : ℚ), (0 : ℚ)), (1, 0), (0, 1)]] := by
    norm_num [extractContoursFromCsv, extractLoop, processSlice, dropLastIfClosed,
      Prod.ext_iff]
  refine ⟨heval, ?_, ?_⟩
  · exact (claim_C6_csv_import id false
        [[((0 : ℚ), (0 : ℚ)), (1, 0), (0, 0)], [((0 : ℚ), (0 : ℚ)), (1, 0), (0, 1)]]).2.2
        [[((0 : ℚ), (0 : ℚ)), (1, 0)], [((0 : ℚ), (0 : ℚ)), (1, 0), (0, 1)]] heval 0
        [((0 : ℚ), (0 : ℚ)), (1, 0), (0, 0)] rfl rfl
  · exact (claim_C6_csv_import id false ([] : List (List (ℚ × ℚ)))).2.1 (by norm_num)

theorem max_right_abs_of_le (a b : ℚ) (h : a ≤ b) : max b |a| = max |b| |a| := by
  rcases le_or_lt 0 b with hb | hb
  · rw [abs_of_nonneg hb]
  · have hab : |b| ≤ |a| := by
      rw [abs_of_neg hb, abs_of_neg (lt_of_le_of_lt h hb)]
      linarith
    rw [max_eq_right (le_trans hb.le (abs_nonneg a)), max_eq_right hab]

theorem bboxRadContrib_eq_spec (b : Bbox) (hx : b.xmin ≤ b.xmax)
    (hy : b.ymin ≤ b.ymax) : bboxRadContrib b = specBboxExtremum b := by
  rw [bboxRadContrib, specBboxExtremum, max_max_max_comm,
    max_right_abs_of_le _ _ hx, max_right_abs_of_le _ _ hy]
  rw [max_comm |b.xmax| |b.xmin|, max_comm |b.ymax| |b.ymin|]

theorem foldl_max_congr (f g : Bbox → ℚ) :
    ∀ (bs : List Bbox) (r : ℚ), (∀ b ∈ bs, f b = g b) →
      bs.foldl (fun r b => max r (f b)) r = bs.foldl (fun r b => max r (g b)) r := by
  intro bs
  induction bs with
  | nil => intro r _; rfl
  | cons x xs ih =>
    intro r h
    simp only [List.foldl_cons]
    rw [h x (List.mem_cons_self x xs)]
    exact ih _ (fun b hb => h b (List.mem_cons_of_mem x hb))

theorem foldl_max_init_le (f : Bbox → ℚ) :
    ∀ (bs : List Bbox) (r : ℚ), r ≤ bs.foldl (fun r b => max r (f b)) r := by
  intro bs
  induction bs with
  | nil => intro r; exact le_refl r
  | cons x xs ih =>
    intro r
    simp only [List.foldl_cons]
    exact le_trans (le_max_left r (f x)) (ih (max r (f x)))

theorem mem_le_foldl_max (f : Bbox → ℚ) :
    ∀ (bs : List Bbox) (r : ℚ) (b : Bbox), b ∈ bs →
      f b ≤ bs.foldl (fun r b => max r (f b)) r := by
  intro bs
  induction bs with
  | nil => intro r b hb; simp at hb
  | cons x xs ih =>
    intro r b hb
    simp only [List.foldl_cons]
    rcases List.mem_cons.mp hb with rfl | hmem
    · exact le_trans (le_max_right r (f b)) (foldl_max_init_le f xs _)
    · exact ih _ b hmem

/-- Claim C7: the radiation section appended by `createCrossSections` has
radius `2.1 · r_max` and PML thickness `r_max`, where `r_max` is the maximum
over the last slice's contours of the largest absolute bounding-box
coordinate `max(|xmin|, |xmax|, |ymin|, |ymax|)`; consequently every point of
every last-slice bounding box lies inside the PML disk of that radius.  The
source takes `max(xmax, ymax, |xmin|, |ymin|)` without absolute values on the
maxima, which agrees with the claim's `r_max` because each bounding box
satisfies `xmin ≤ xmax` and `ymin ≤ ymax`. -/
theorem claim_C7_radiation_section (bs : List Bbox)
    (hvalid : ∀ b ∈ bs, b.xmin ≤ b.xmax ∧ b.ymin ≤ b.ymax) :
    radiationRadius bs = 21 / 10 * specRmax bs ∧
    pmlThickness bs = specRmax bs ∧
    (∀ b ∈ bs, ∀ x y : ℚ, b.xmin ≤ x → x ≤ b.xmax → b.ymin ≤ y → y ≤ b.ymax →
      x ^ 2 + y ^ 2 ≤ radiationRadius bs ^ 2) := by
  have hfold : lastSliceRadius bs = specRmax bs := by
    rw [lastSliceRadius, specRmax]
    exact foldl_max_congr bboxRadContrib specBboxExtremum bs 0
      (fun b hb => bboxRadContrib_eq_spec b (hvalid b hb).1 (hvalid b hb).2)
  refine ⟨by rw [radiationRadius, hfold], by rw [pmlThickness, hfold], ?_⟩
  intro b hb x y hx1 hx2 hy1 hy2
  have hR0 : (0 : ℚ) ≤ specRmax bs := by
    rw [specRmax]
    exact foldl_max_init_le specBboxExtremum bs 0
  have hbR : specBboxExtremum b ≤ specRmax bs := by
    rw [specRmax]
    exact mem_le_foldl_max specBboxExtremum bs 0 b hb
  have hxabs : |x| ≤ specRmax bs := by
    refine le_trans (abs_le_max_abs_abs hx1 hx2) (le_trans ?_ hbR)
    rw [specBboxExtremum]
    exact le_max_left _ _
  have hyabs : |y| ≤ specRmax bs := by
    refine le_trans (abs_le_max_abs_abs hy1 hy2) (le_trans ?_ hbR)
    rw [specBboxExtremum]
    exact le_max_right _ _
  have hx2R : x ^ 2 ≤ specRmax bs ^ 2 := by
    rcases abs_le.mp hxabs with ⟨h1, h2⟩
    exact sq_le_sq' h1 h2
  have hy2R : y ^ 2 ≤ specRmax bs ^ 2 := by
    rcases abs_le.mp hyabs with ⟨h1, h2⟩
    exact sq_le_sq' h1 h2
  have hrad : radiationRadius bs = 21 / 10 * specRmax bs := by
    rw [radiationRadius, hfold]
  rw [hrad]
  have hsq : (0 : ℚ) ≤ specRmax bs ^ 2 := sq_nonneg _
  nlinarith [hx2R, hy2R, hsq]

/-- Witness for claim C7's theorem on a single last-slice bounding box
`[-1, 2] × [-3, 1]` (so `r_max = 3`, radius `6.3`, PML thickness `3`). -/
theorem claim_C7_witness :
    (∀ b ∈ [Bbox.mk (-1) 2 (-3) 1], b.xmin ≤ b.xmax ∧ b.ymin ≤ b.ymax) ∧
    (radiationRadius [Bbox.mk (-1) 2 (-3) 1]
        = 21 / 10 * specRmax [Bbox.mk (-1) 2 (-3) 1] ∧
     pmlThickness [Bbox.mk (-1) 2 (-3) 1] = specRmax [Bbox.mk (-1) 2 (-3) 1] ∧
     (∀ b ∈ [Bbox.mk (-1) 2 (-3) 1], ∀ x y : ℚ,
        b.xmin ≤ x → x ≤ b.xmax → b.ymin ≤ y → y ≤ b.ymax →
        x ^ 2 + y ^ 2 ≤ radiationRadius [Bbox.mk (-1) 2 (-3) 1] ^ 2)) := by
  have hvalid : ∀ b ∈ [Bbox.mk (-1) 2 (-3) 1], b.xmin ≤ b.xmax ∧ b.ymin ≤ b.ymax := by
    intro b hb
    rw [List.mem_singleton] at hb
    subst hb
    norm_num
  exact ⟨hvalid, claim_C7_radiation_section [Bbox.mk (-1) 2 (-3) 1] hvalid⟩

/-- Claim C10: for every frequency, point index and transfer-function matrix,
`interpolateTransferFunction` returns either NaN (`none`: no transfer
function computed, or frequency outside the computed interval) or a complex
number with zero imaginary part and nonnegative real part `pow(10, ·)` of a
real exponent; and the result depends on the stored transfer function only
through the squared magnitudes of its entries, so the phase is discarded.
The nonnegativity of the primitive `t ↦ 10^t` is a hypothesis because the
power function is abstract in the embedding. -/
theorem claim_C10_tf_interpolation (logTen powTen sqrtQ : ℚ → ℚ)
    (hpow : ∀ t, 0 ≤ powTen t)
    (tfRows tfCols : ℕ) (tf tfB : ℕ → ℕ → Cplx) (tfFreqs : List ℚ)
    (samplingRate : ℚ) (numFreqPicture : ℕ) (freq : ℚ) (idxPt : ℕ)
    (hmag : ∀ m n, (tf m n).re ^ 2 + (tf m n).im ^ 2
      = (tfB m n).re ^ 2 + (tfB m n).im ^ 2) :
    (interpolateTF logTen powTen sqrtQ tfRows tfCols tf tfFreqs samplingRate
        numFreqPicture freq idxPt = none ∨
     ∃ x : ℚ, 0 ≤ x ∧
       interpolateTF logTen powTen sqrtQ tfRows tfCols tf tfFreqs samplingRate
         numFreqPicture freq idxPt = some ⟨x, 0⟩) ∧
    interpolateTF logTen powTen sqrtQ tfRows tfCols tf tfFreqs samplingRate
        numFreqPicture freq idxPt
      = interpolateTF logTen powTen sqrtQ tfRows tfCols tfB tfFreqs samplingRate
        numFreqPicture freq idxPt := by
  constructor
  · cases tfFreqs with
    | nil => exact Or.inl rfl
    | cons f0 rest =>
      by_cases h1 : 0 < tfRows
      · by_cases h2 : f0 ≤ freq ∧ freq ≤ (f0 :: rest).getLastD 0
        · rw [interpolateTF, if_pos h1, if_pos h2]
          dsimp only
          exact Or.inr ⟨_, hpow _, rfl⟩
        · rw [interpolateTF, if_pos h1, if_neg h2]
          exact Or.inl rfl
      · rw [interpolateTF, if_neg h1]
        exact Or.inl rfl
  · cases tfFreqs with
    | nil => rfl
    | cons f0 rest =>
      simp only [interpolateTF, hmag]

/-- Witness for claim C10's theorem with identity primitives, the constant
zero power function, a constant transfer function and the frequency `1/2`
inside the computed interval `[0, 1]`. -/
theorem claim_C10_witness :
    (∀ t : ℚ, 0 ≤ (fun _ : ℚ => (0 : ℚ)) t) ∧
    (∀ m n : ℕ, ((fun _ _ : ℕ => (Cplx.mk 1 0)) m n).re ^ 2
          + ((fun _ _ : ℕ => (Cplx.mk 1 0)) m n).im ^ 2
        = ((fun _ _ : ℕ => (Cplx.mk 1 0)) m n).re ^ 2
          + ((fun _ _ : ℕ => (Cplx.mk 1 0)) m n).im ^ 2) ∧
    ((interpolateTF id (fun _ => 0) id 1 1 (fun _ _ => Cplx.mk 1 0) [0, 1] 2 1
        (1/2) 0 = none ∨
      ∃ x : ℚ, 0 ≤ x ∧
        interpolateTF id (fun _ => 0) id 1 1 (fun _ _ => Cplx.mk 1 0) [0, 1] 2 1
          (1/2) 0 = some ⟨x, 0⟩) ∧
     interpolateTF id (fun _ => 0) id 1 1 (fun _ _ => Cplx.mk 1 0) [0, 1] 2 1
         (1/2) 0
       = interpolateTF id (fun _ => 0) id 1 1 (fun _ _ => Cplx.mk 1 0) [0, 1] 2 1
         (1/2) 0) :=
  ⟨fun _ => le_refl 0, fun _ _ => rfl,
    claim_C10_tf_interpolation id (fun _ => 0) id (fun _ => le_refl 0) 1 1
      (fun _ _ => Cplx.mk 1 0) (fun _ _ => Cplx.mk 1 0) [0, 1] 2 1 (1/2) 0
      (fun _ _ => rfl)⟩

/-- Claim C9: for every pair of centerline points and unit normals given as
input, `getCurvatureAngleShift` returns `shift = 0`, because the output
documented as the distance necessary to shift `P2` along `N2` is computed as
`radii[0] - radius` with `radius` itself set to `radii[0]`. -/
theorem claim_C9_shift_is_zero (P1 P2 N1 N2 : Pt2) :
    (getCurvatureAngleShift P1 P2 N1 N2).2 = 0 := by
  simp [getCurvatureAngleShift]

end Vocal3D
